import Mathlib

/-!
Shallow embedding of the unified-agent process-based RPC transport:
`BaseConnection` (src/connection/BaseConnection.ts), the session-dialect
adapter `AcpConnection` (src/connection/AcpConnection.ts) and the
tool-dialect adapter `McpConnection`.

JavaScript promise resolution/rejection, event-emitter emissions and
writes to the child process's stdin are modelled as an explicit list of
`Output` values produced by each operation.  The pending-request `Map`
and the pending-auto-approval `Map` are modelled as association lists;
`setTimeout` timers are modelled by the rule that a timer is armed
exactly while its id has a pending entry (the code clears the timer on
every path that removes the entry).
-/

namespace UA

/-- Json values, a shallow model of the JavaScript values carried in
JSON-RPC messages. -/
inductive Json where
  | null
  | bool (b : Bool)
  | num (n : Int)
  | str (s : String)
  | arr (elems : List Json)
  | obj (fields : List (String × Json))

/-- Property access `j[k]` on a JavaScript object: `none` models
`undefined` (missing property or non-object receiver). -/
def Json.get : Json → String → Option Json
  | .obj fields, k => fields.lookup k
  | _, _ => none

/-- Property access that must yield a string (`undefined` otherwise). -/
def Json.getStr (j : Json) (k : String) : Option String :=
  match j.get k with
  | some (.str s) => some s
  | _ => none

/-- JavaScript string truthiness: the empty string is falsy, so a guard
`if (s && ...)` drops both `undefined` and `''`. -/
def jsTruthyStr : Option String → Option String
  | some s => if s = "" then none else some s
  | none => none

/-- Structured JSON-RPC error object (`error{code,message}`). -/
structure RpcError where
  code : Int
  message : String
deriving DecidableEq, Repr

/-- Decoded inbound JSON-RPC message, keeping each field optional so the
structural dispatch of `BaseConnection.handleMessage` ('id' in msg,
'method' in msg, ...) can be modelled faithfully. -/
structure RawMessage where
  id : Option Nat
  method : Option String
  result : Option Json
  error : Option RpcError
  params : Option Json

/-- ConnectionState from src/types/common.ts. -/
inductive ConnectionState where
  | disconnected
  | connecting
  | connected
  | initializing
  | ready
  | error
  | closed
deriving DecidableEq, Repr

/-- Display name of a state, as carried by the `stateChange` event. -/
def ConnectionState.name : ConnectionState → String
  | .disconnected => "disconnected"
  | .connecting => "connecting"
  | .connected => "connected"
  | .initializing => "initializing"
  | .ready => "ready"
  | .error => "error"
  | .closed => "closed"

/-- The distinct `Error` values with which the code rejects a caller's
promise. -/
inductive ErrKind where
  | notConnected
  | timeout (timeoutMs : Nat) (method : String)
  | rpcError (code : Int) (message : String)
  | processTerminated (code : Option Int) (signal : Option String)
  | connectionClosed
  | spawnError
deriving DecidableEq, Repr

/-- A line written to the child process's stdin. -/
inductive WireMsg where
  | request (id : Nat) (method : String) (params : Option Json)
  | notification (method : String) (params : Option Json)
  | response (id : Nat) (result : Json)
  | errorResponse (id : Nat) (code : Int) (message : String)

/-- Observable effects of one operation: promise resolutions/rejections
(keyed by the request id they settle), stdin writes, log lines and
event-emitter emissions. -/
inductive Output where
  | resolve (id : Nat) (result : Option Json)
  | rejected (id : Nat) (err : ErrKind)
  | sendRejected (err : ErrKind)
  | wire (msg : WireMsg)
  | log (line : String)
  | event (name : String) (payload : List Json)

/-- PendingRequest from src/types/common.ts; the resolve/reject closures
are modelled by `Output.resolve`/`Output.rejected` keyed by the id, and
the timer by the entry's presence in the pending map. -/
structure PendingRequest where
  method : String
  timeoutMs : Nat
deriving DecidableEq, Repr

/-- Lookup in a JavaScript `Map` modelled as an association list. -/
def alist.lookup {κ ν : Type} [DecidableEq κ] (k : κ) : List (κ × ν) → Option ν
  | [] => none
  | kv :: rest => if kv.1 = k then some kv.2 else alist.lookup k rest

/-- Removal (`Map.delete`); keys are unique in every map the code
builds, so removing every entry with the key is the same operation. -/
def alist.erase {κ ν : Type} [DecidableEq κ] (k : κ) (l : List (κ × ν)) : List (κ × ν) :=
  l.filter (fun kv => kv.1 ≠ k)

/-- Insertion-or-overwrite (`Map.set`). -/
def alist.set {κ ν : Type} [DecidableEq κ] (k : κ) (v : ν) : List (κ × ν) → List (κ × ν)
  | [] => [(k, v)]
  | kv :: rest => if kv.1 = k then (k, v) :: rest else kv :: alist.set k v rest

/-- Mutable state of a `BaseConnection`: `child` records whether a child
process with an open stdin is attached. -/
structure Conn where
  child : Bool
  nextId : Nat
  pending : List (Nat × PendingRequest)
  state : ConnectionState
  stdoutBuffer : String
  requestTimeout : Nat
  initTimeout : Nat
deriving DecidableEq, Repr

/-- Options accepted by the `BaseConnection` constructor (only the
fields the transport core consults). -/
structure BaseConnectionOptions where
  requestTimeout : Option Nat
  initTimeout : Option Nat
deriving DecidableEq, Repr

/-- The `BaseConnection` constructor: defaults are 300000 ms (5 min) for
`requestTimeout` and 60000 ms for `initTimeout`. -/
def mkConn (opts : BaseConnectionOptions) : Conn :=
  { child := false
    nextId := 0
    pending := []
    state := .disconnected
    stdoutBuffer := ""
    requestTimeout := opts.requestTimeout.getD 300000
    initTimeout := opts.initTimeout.getD 60000 }

/-- setState: update the state and emit `stateChange` when it changed. -/
def Conn.setState (c : Conn) (s : ConnectionState) : Conn × List Output :=
  if c.state = s then (c, [])
  else ({ c with state := s }, [.event "stateChange" [.str s.name]])

/-- sendRequest: reject immediately when no child process (with stdin)
is attached; otherwise allocate `nextId`, arm a timer with the caller's
timeout or `requestTimeout`, record the PendingRequest and write the
request line. -/
def Conn.sendRequest (c : Conn) (method : String) (params : Option Json)
    (timeout : Option Nat) : Conn × List Output :=
  if c.child then
    let id := c.nextId
    let timeoutMs := timeout.getD c.requestTimeout
    ({ c with
        nextId := c.nextId + 1
        pending := alist.set id ⟨method, timeoutMs⟩ c.pending },
     [.wire (.request id method params)])
  else
    (c, [.sendRejected .notConnected])

/-- The timer callback of `sendRequest`: delete the pending entry and
reject with a timeout error.  A timer can only fire while armed, i.e.
while the id is still pending (every path that removes the entry also
clears the timer), so the missing-entry branch is unreachable. -/
def Conn.fireTimeout (c : Conn) (id : Nat) : Conn × List Output :=
  match alist.lookup id c.pending with
  | some p =>
      ({ c with pending := alist.erase id c.pending },
       [.rejected id (.timeout p.timeoutMs p.method)])
  | none => (c, [])

/-- rejectAllPending: clear every timer, reject every pending request
with the one given error and empty the map. -/
def Conn.rejectAllPending (c : Conn) (err : ErrKind) : Conn × List Output :=
  ({ c with pending := [] },
   c.pending.map (fun kv => .rejected kv.1 err))

/-- The child 'exit' handler: state becomes `closed`, every pending
request is rejected with the same process-terminated error, and the
`exit` event is emitted. -/
def Conn.onExit (c : Conn) (code : Option Int) (signal : Option String) :
    Conn × List Output :=
  let r1 := c.setState .closed
  let r2 := r1.1.rejectAllPending (.processTerminated code signal)
  (r2.1, r1.2 ++ r2.2 ++ [.event "exit" []])

/-- The child 'error' handler (spawn/process error): state becomes
`error`, every pending request is rejected with the error, and the
`error` event is emitted. -/
def Conn.onProcError (c : Conn) : Conn × List Output :=
  let r1 := c.setState .error
  let r2 := r1.1.rejectAllPending .spawnError
  (r2.1, r1.2 ++ r2.2 ++ [.event "error" []])

/-- disconnect: kill the child and clear the handle, reject all pending
requests with a connection-closed error, state becomes `disconnected`. -/
def Conn.disconnect (c : Conn) : Conn × List Output :=
  let c1 : Conn := { c with child := false }
  let r2 := c1.rejectAllPending .connectionClosed
  let r3 := r2.1.setState .disconnected
  (r3.1, r2.2 ++ r3.2)

/-- spawnProcess: state `connecting`, attach the child, state
`connected`.  Buffers and counters are not reset. -/
def Conn.spawnProcess (c : Conn) : Conn × List Output :=
  let r1 := c.setState .connecting
  let c2 : Conn := { r1.1 with child := true }
  let r3 := c2.setState .connected
  (r3.1, r1.2 ++ r3.2)

/-- Classification produced by `BaseConnection.handleMessage` for the
two abstract subclass hooks. -/
inductive Dispatch where
  | noDispatch
  | serverRequest (id : Nat) (method : String) (params : Option Json)
  | notification (method : String) (params : Option Json)

/-- handleMessage, base part: (1) a numeric id with a pending entry is a
response — remove the entry, clear its timer and settle the promise
(reject on a truthy `error` member, resolve with `result` otherwise);
(2) an id plus a method with no pending entry is a remote-initiated
request; (3) a method without an id is a notification; anything else is
dropped.  The subclass hook to run is returned as a `Dispatch`. -/
def Conn.handleMessageCore (c : Conn) (msg : RawMessage) :
    Conn × List Output × Dispatch :=
  match msg.id with
  | some mid =>
    match alist.lookup mid c.pending with
    | some _ =>
      let c1 : Conn := { c with pending := alist.erase mid c.pending }
      match msg.error with
      | some e => (c1, [.rejected mid (.rpcError e.code e.message)], .noDispatch)
      | none => (c1, [.resolve mid msg.result], .noDispatch)
    | none =>
      match msg.method with
      | some m => (c, [], .serverRequest mid m msg.params)
      | none => (c, [], .noDispatch)
  | none =>
    match msg.method with
    | some m => (c, [], .notification m msg.params)
    | none => (c, [], .noDispatch)

/-- A wire response message as produced by the remote peer. -/
def responseMsg (id : Nat) (v : Json) : RawMessage :=
  { id := some id, method := none, result := some v, error := none, params := none }

/-- Delivery of a list of responses, one `handleMessage` call per
message.  Responses never dispatch to a subclass hook, so dropping the
`Dispatch` component is exact here. -/
def Conn.deliverResponses (c : Conn) : List (Nat × Json) → Conn × List Output
  | [] => (c, [])
  | (i, v) :: rest =>
    let r1 := c.handleMessageCore (responseMsg i v)
    let r2 := r1.1.deliverResponses rest
    (r2.1, r1.2.1 ++ r2.2)

/-- Outcome of one awaited RPC, as seen by `AcpConnection.connect`:
a successful response, an error response, or a fired deadline. -/
inductive RpcOutcome where
  | ok (result : Json)
  | err (code : Int) (message : String)
  | timeout

/-- Boolean success test for an outcome. -/
def RpcOutcome.isOk : RpcOutcome → Bool
  | .ok _ => true
  | _ => false

/-- Feeding one outcome for the pending request `id` through the real
machinery: a response (success or error) goes through `handleMessage`, a
deadline goes through the timer callback. -/
def Conn.deliverOutcome (c : Conn) (id : Nat) : RpcOutcome → Conn × List Output
  | .ok r =>
    let r1 := c.handleMessageCore
      { id := some id, method := none, result := some r, error := none, params := none }
    (r1.1, r1.2.1)
  | .err code msg =>
    let r1 := c.handleMessageCore
      { id := some id, method := none, result := none, error := some ⟨code, msg⟩, params := none }
    (r1.1, r1.2.1)
  | .timeout => c.fireTimeout id

/-- One externally triggered step of the base transport: an API call,
an inbound decoded message, a timer firing or a process event. -/
inductive Op where
  | spawn
  | send (method : String) (params : Option Json) (timeout : Option Nat)
  | deliver (msg : RawMessage)
  | fire (id : Nat)
  | exited (code : Option Int) (signal : Option String)
  | errored
  | close

/-- Step function of the base transport (`deliver` covers the base part
of `handleMessage`; subclass hooks never touch the pending map except
through `sendRequest`, which is covered by `send`). -/
def Conn.step (c : Conn) : Op → Conn × List Output
  | .spawn => c.spawnProcess
  | .send m p t => c.sendRequest m p t
  | .deliver msg =>
    let r := c.handleMessageCore msg
    (r.1, r.2.1)
  | .fire id => c.fireTimeout id
  | .exited code sig => c.onExit code sig
  | .errored => c.onProcError
  | .close => c.disconnect

/-- Running a sequence of steps, concatenating the outputs. -/
def Conn.runOps (c : Conn) : List Op → Conn × List Output
  | [] => (c, [])
  | op :: rest =>
    let r1 := c.step op
    let r2 := r1.1.runOps rest
    (r2.1, r1.2 ++ r2.2)

/-- ElicitationDecision from src/types/mcp.ts. -/
inductive ElicitationDecision where
  | approved
  | approvedForSession
  | denied
  | abort
deriving DecidableEq, Repr

/-- Wire form of a decision. -/
def ElicitationDecision.toStr : ElicitationDecision → String
  | .approved => "approved"
  | .approvedForSession => "approved_for_session"
  | .denied => "denied"
  | .abort => "abort"

/-- Body sent by `respondToElicitation`: `{ decision }`. -/
def elicitationResult (d : ElicitationDecision) : Json :=
  .obj [("decision", .str d.toStr)]

/-- Mutable state of a `McpConnection` (tool dialect): the base
transport plus the approval flags and the pending-auto-approval map. -/
structure McpConn where
  base : Conn
  autoApprove : Bool
  yoloMode : Bool
  pendingAutoApprovals : List (String × ElicitationDecision)

/-- Fallback branches of the `elicitation/create` handler: auto-approve
when configured, otherwise surface an `approvalRequest` event with the
call id (`?? ''`) and message (`?? ''`). -/
def McpConn.elicitationDefault (m : McpConn) (rid : Nat) (callId : Option String)
    (params : Option Json) : McpConn × List Output :=
  if m.autoApprove || m.yoloMode then
    (m, [.wire (.response rid (elicitationResult .approved))])
  else
    (m, [.event "approvalRequest"
      [.str (callId.getD ""), .str ((params.bind (fun p => p.getStr "message")).getD "")]])

/-- McpConnection.handleServerRequest: `elicitation/create` first
consumes a buffered auto-approval for the (truthy) call id if one
exists, else follows the auto-approve/ask policy;
`sampling/createMessage` and unknown methods get a -32601 error
response. -/
def McpConn.handleServerRequest (m : McpConn) (rid : Nat) (method : String)
    (params : Option Json) : McpConn × List Output :=
  if method = "elicitation/create" then
    let callId := params.bind (fun p => p.getStr "codex_call_id")
    match jsTruthyStr callId with
    | some cid =>
      match alist.lookup cid m.pendingAutoApprovals with
      | some d =>
        ({ m with pendingAutoApprovals := alist.erase cid m.pendingAutoApprovals },
         [.wire (.response rid (elicitationResult d))])
      | none => m.elicitationDefault rid callId params
    | none => m.elicitationDefault rid callId params
  else if method = "sampling/createMessage" then
    (m, [.wire (.errorResponse rid (-32601) "sampling/createMessage은 현재 지원하지 않습니다")])
  else
    (m, [.wire (.errorResponse rid (-32601) ("지원하지 않는 메서드: " ++ method))])

/-- McpConnection.handleNotification: `codex/event` re-emits the event
and, for an `exec_approval_request` with a truthy call id under
auto-approve or YOLO mode, records an `approved` entry in the
pending-auto-approval map; `notifications/tools/list_changed` re-fetches
the tool catalog with an ordinary request; everything else is re-emitted
generically. -/
def McpConn.handleNotification (m : McpConn) (method : String)
    (params : Option Json) : McpConn × List Output :=
  if method = "codex/event" then
    let outs : List Output := [.event "codexEvent" params.toList]
    let msgObj := params.bind (fun p => p.get "msg")
    let mtype := msgObj.bind (fun o => o.getStr "type")
    match jsTruthyStr (msgObj.bind (fun o => o.getStr "call_id")) with
    | some cid =>
      if mtype = some "exec_approval_request" ∧ (m.autoApprove || m.yoloMode) = true then
        ({ m with pendingAutoApprovals := alist.set cid .approved m.pendingAutoApprovals },
         outs)
      else (m, outs)
    | none => (m, outs)
  else if method = "notifications/tools/list_changed" then
    let r := m.base.sendRequest "tools/list" none none
    ({ m with base := r.1 }, r.2)
  else
    (m, [.event "notification" (Json.str method :: params.toList)])

/-- Full inbound dispatch for the tool dialect: the base classification
followed by the subclass hook it selects. -/
def McpConn.handleMessage (m : McpConn) (msg : RawMessage) : McpConn × List Output :=
  let r := m.base.handleMessageCore msg
  let m1 : McpConn := { m with base := r.1 }
  match r.2.2 with
  | .noDispatch => (m1, r.2.1)
  | .serverRequest rid meth ps =>
    let r2 := m1.handleServerRequest rid meth ps
    (r2.1, r.2.1 ++ r2.2)
  | .notification meth ps =>
    let r2 := m1.handleNotification meth ps
    (r2.1, r.2.1 ++ r2.2)

/-- Sequential delivery of several inbound messages. -/
def McpConn.handleMessages (m : McpConn) : List RawMessage → McpConn × List Output
  | [] => (m, [])
  | msg :: rest =>
    let r1 := m.handleMessage msg
    let r2 := r1.1.handleMessages rest
    (r2.1, r1.2 ++ r2.2)

/-- Structural split of a character list at every separator, modelling
JavaScript String.split: n separators yield n+1 parts. -/
def splitChar (sep : Char) : List Char → List (List Char)
  | [] => [[]]
  | c :: rest =>
    match splitChar sep rest with
    | [] => [[]]
    | h :: t => if c = sep then [] :: h :: t else (c :: h) :: t

/-- JavaScript split('\n') over a string. -/
def jsSplitLines (s : String) : List String :=
  (splitChar '\n' s.data).map (fun l => ⟨l⟩)

/-- JavaScript String.trim: drop whitespace from both ends. -/
def jsTrim (s : String) : String :=
  ⟨((s.data.dropWhile Char.isWhitespace).reverse.dropWhile Char.isWhitespace).reverse⟩

/-- Body of the stdout for-loop: skip blank lines, dispatch a line that
parses as JSON, and emit exactly one log event for one that does not
(the catch branch — never an error). -/
def McpConn.processLine (parse : String → Option RawMessage) (m : McpConn)
    (line : String) : McpConn × List Output :=
  let trimmed := jsTrim line
  if trimmed = "" then (m, [])
  else
    match parse trimmed with
    | some msg => m.handleMessage msg
    | none => (m, [.log ("[stdout non-json] " ++ trimmed)])

/-- The body of the stdout for-loop over the complete lines, in order. -/
def McpConn.processLines (parse : String → Option RawMessage) (m : McpConn) :
    List String → McpConn × List Output
  | [] => (m, [])
  | line :: rest =>
    let r1 := m.processLine parse line
    let r2 := r1.1.processLines parse rest
    (r2.1, r1.2 ++ r2.2)

/-- The stdout 'data' handler: append the chunk to the partial-line
buffer, split on newlines, keep the trailing fragment as the new buffer
(`pop() || ''`) and process every complete line in order. -/
def McpConn.onStdoutData (parse : String → Option RawMessage) (m : McpConn)
    (data : String) : McpConn × List Output :=
  let parts := jsSplitLines (m.base.stdoutBuffer ++ data)
  let m0 : McpConn := { m with base := { m.base with stdoutBuffer := parts.getLastD "" } }
  m0.processLines parse parts.dropLast

/-- Mutable state of an `AcpConnection` (session dialect). -/
structure AcpConn where
  base : Conn
  autoApprove : Bool
  protocolVersion : Nat
  clientName : String
  clientVersion : String

/-- Payload of a permission/file event: the request params plus the
JSON-RPC request id handed to the host for the eventual answer. -/
def acpEventPayload (params : Option Json) (rid : Nat) : List Json :=
  params.toList ++ [.num rid]

/-- AcpConnection.handleServerRequest: auto-approve a permission request
with the first offered option when configured and at least one option is
present, otherwise surface it; file read/write requests are surfaced;
unknown methods get a -32601 error response. -/
def AcpConn.handleServerRequest (a : AcpConn) (rid : Nat) (method : String)
    (params : Option Json) : AcpConn × List Output :=
  if method = "session/request_permission" then
    match params.bind (fun p => p.get "options") with
    | some (.arr (first :: _)) =>
      if a.autoApprove then
        (a, [.wire (.response rid (.obj [("optionId", (first.get "optionId").getD .null)]))])
      else
        (a, [.event "permissionRequest" (acpEventPayload params rid)])
    | _ => (a, [.event "permissionRequest" (acpEventPayload params rid)])
  else if method = "fs/read_text_file" then
    (a, [.event "fileRead" (acpEventPayload params rid)])
  else if method = "fs/write_text_file" then
    (a, [.event "fileWrite" (acpEventPayload params rid)])
  else
    (a, [.wire (.errorResponse rid (-32601) ("지원하지 않는 메서드: " ++ method))])

/-- Params of the `initialize` handshake request. -/
def AcpConn.initParams (a : AcpConn) : Json :=
  .obj [("protocolVersion", .num a.protocolVersion),
        ("capabilities", .obj []),
        ("clientInfo", .obj [("name", .str a.clientName), ("version", .str a.clientVersion)])]

/-- AcpConnection.connect: spawn, state `initializing`, await
`initialize` then `session/new` (both with the initialize-class
timeout).  A failed await propagates out immediately: only when both
outcomes are successes does the state advance to `ready`.  The two
outcomes are the responses/deadlines the environment supplies for the
two requests; the returned Bool is whether connect returned normally. -/
def AcpConn.connect (a : AcpConn) (workspace : String) (o1 o2 : RpcOutcome) :
    AcpConn × List Output × Bool :=
  let r1 := a.base.spawnProcess
  let r2 := r1.1.setState .initializing
  let initId := r2.1.nextId
  let r3 := r2.1.sendRequest "initialize" (some a.initParams) (some r2.1.initTimeout)
  let r4 := r3.1.deliverOutcome initId o1
  match o1 with
  | .ok _ =>
    let sessId := r4.1.nextId
    let sessParams : Json := .obj [("cwd", .str workspace), ("mcpServers", .arr [])]
    let r5 := r4.1.sendRequest "session/new" (some sessParams) (some r4.1.initTimeout)
    let r6 := r5.1.deliverOutcome sessId o2
    match o2 with
    | .ok _ =>
      let r7 := r6.1.setState .ready
      ({ a with base := r7.1 }, r1.2 ++ r2.2 ++ r3.2 ++ r4.2 ++ r5.2 ++ r6.2 ++ r7.2, true)
    | _ => ({ a with base := r6.1 }, r1.2 ++ r2.2 ++ r3.2 ++ r4.2 ++ r5.2 ++ r6.2, false)
  | _ => ({ a with base := r4.1 }, r1.2 ++ r2.2 ++ r3.2 ++ r4.2, false)

/-- Keys of the pending-request map. -/
def connKeys (c : Conn) : List Nat := c.pending.map Prod.fst

/-- Well-formedness of a connection's pending table: keys are distinct
and every key was allocated below the current counter. -/
def ConnWF (c : Conn) : Prop :=
  (connKeys c).Nodup ∧ ∀ k ∈ connKeys c, k < c.nextId

instance (c : Conn) : Decidable (ConnWF c) :=
  inferInstanceAs (Decidable ((connKeys c).Nodup ∧ ∀ k ∈ connKeys c, k < c.nextId))

/-- Ids of the requests written to stdin within an output list. -/
def reqIds (outs : List Output) : List Nat :=
  outs.filterMap (fun o =>
    match o with
    | .wire (.request i _ _) => some i
    | _ => none)

/-- Rejections contained in an output list, with their errors. -/
def rejectionsOf (outs : List Output) : List (Nat × ErrKind) :=
  outs.filterMap (fun o =>
    match o with
    | .rejected i e => some (i, e)
    | _ => none)

/-- Responses written to stdin within an output list (the decisions the
adapter sends back to the remote peer). -/
def responsesOf (outs : List Output) : List (Nat × Json) :=
  outs.filterMap (fun o =>
    match o with
    | .wire (.response i r) => some (i, r)
    | _ => none)

theorem alist.lookup_eq_none {κ ν : Type} [DecidableEq κ] {k : κ}
    {l : List (κ × ν)} : alist.lookup k l = none ↔ k ∉ l.map Prod.fst := by
  induction l with
  | nil => simp [alist.lookup]
  | cons kv rest ih =>
    rw [List.map_cons, List.mem_cons]
    by_cases h : kv.1 = k
    · simp [alist.lookup, h]
    · simp only [alist.lookup, if_neg h]
      rw [ih]
      constructor
      · intro hk hor
        rcases hor with h1 | h2
        · exact h h1.symm
        · exact hk h2
      · intro hk hm
        exact hk (Or.inr hm)

theorem alist.lookup_isSome_of_mem {κ ν : Type} [DecidableEq κ] {k : κ}
    {l : List (κ × ν)} (h : k ∈ l.map Prod.fst) :
    ∃ v, alist.lookup k l = some v := by
  cases hl : alist.lookup k l with
  | none => exact absurd h (alist.lookup_eq_none.mp hl)
  | some v => exact ⟨v, rfl⟩

theorem alist.keys_erase {κ ν : Type} [DecidableEq κ] (k : κ)
    (l : List (κ × ν)) :
    (alist.erase k l).map Prod.fst = (l.map Prod.fst).filter (fun x => x ≠ k) := by
  induction l with
  | nil => rfl
  | cons kv rest ih =>
    by_cases h : kv.1 = k <;> simp [alist.erase, List.filter_cons, h, ih] at *
    · exact ih
    · exact ih

theorem alist.lookup_erase_self {κ ν : Type} [DecidableEq κ] (k : κ)
    (l : List (κ × ν)) : alist.lookup k (alist.erase k l) = none := by
  rw [alist.lookup_eq_none, alist.keys_erase]
  simp

theorem alist.keys_set_fresh {κ ν : Type} [DecidableEq κ] {k : κ} (v : ν)
    {l : List (κ × ν)} (h : k ∉ l.map Prod.fst) :
    (alist.set k v l).map Prod.fst = l.map Prod.fst ++ [k] := by
  induction l with
  | nil => rfl
  | cons kv rest ih =>
    rw [List.map_cons, List.mem_cons] at h
    push_neg at h
    obtain ⟨h1, h2⟩ := h
    simp only [alist.set]
    rw [if_neg (fun hh => h1 hh.symm)]
    simp [ih h2]

theorem alist.lookup_set_self {κ ν : Type} [DecidableEq κ] (k : κ) (v : ν)
    (l : List (κ × ν)) : alist.lookup k (alist.set k v l) = some v := by
  induction l with
  | nil => simp [alist.set, alist.lookup]
  | cons kv rest ih =>
    by_cases h : kv.1 = k <;> simp [alist.set, alist.lookup, h, ih]

theorem alist.lookup_eq_none_of_bound {ν : Type} {n : Nat}
    {l : List (Nat × ν)} (h : ∀ j ∈ l.map Prod.fst, j < n) :
    alist.lookup n l = none := by
  rw [alist.lookup_eq_none]
  intro hmem
  exact absurd (h n hmem) (lt_irrefl n)

@[simp] theorem rejectionsOf_nil : rejectionsOf [] = [] := rfl

@[simp] theorem rejectionsOf_append (l1 l2 : List Output) :
    rejectionsOf (l1 ++ l2) = rejectionsOf l1 ++ rejectionsOf l2 :=
  List.filterMap_append l1 l2 _

@[simp] theorem rejectionsOf_event (n : String) (p : List Json) (outs : List Output) :
    rejectionsOf (.event n p :: outs) = rejectionsOf outs := rfl

@[simp] theorem rejectionsOf_rejected (i : Nat) (e : ErrKind) (outs : List Output) :
    rejectionsOf (.rejected i e :: outs) = (i, e) :: rejectionsOf outs := rfl

@[simp] theorem rejectionsOf_map_rejected (l : List (Nat × PendingRequest)) (err : ErrKind) :
    rejectionsOf (l.map (fun kv => Output.rejected kv.1 err))
      = l.map (fun kv => (kv.1, err)) := by
  induction l with
  | nil => rfl
  | cons kv rest ih =>
    simp only [List.map_cons, rejectionsOf_rejected, ih]

/-- Options record with every field defaulted. -/
def sampleOpts : BaseConnectionOptions := ⟨none, none⟩

/-- A ready connection with an attached child, as after a handshake. -/
def sampleConn : Conn := { mkConn sampleOpts with child := true, state := .ready }

/-- A ready connection with two outstanding requests. -/
def samplePending : Conn :=
  { sampleConn with nextId := 2, pending := [(0, ⟨"a", 1000⟩), (1, ⟨"b", 1000⟩)] }

/-- A session-dialect adapter over a freshly constructed connection. -/
def sampleAcp : AcpConn :=
  { base := mkConn sampleOpts, autoApprove := false, protocolVersion := 1,
    clientName := "UnifiedAgent", clientVersion := "1.0.0" }

/-- A tool-dialect adapter in automatic-approval mode over a live
connection. -/
def sampleMcp : McpConn :=
  { base := sampleConn, autoApprove := true, yoloMode := false,
    pendingAutoApprovals := [] }

/-- C10: calling sendRequest while no subprocess is attached rejects the
returned promise with the not-connected error and returns the connection
record unchanged — no id consumed, no PendingRequest inserted, no timer
armed, no state change; and disconnect clears the child handle, after
which sendRequest behaves the same way. -/
theorem sendRequest_not_connected (c c2 : Conn) (h : c.child = false)
    (method : String) (params : Option Json) (timeout : Option Nat) :
    c.sendRequest method params timeout = (c, [.sendRejected .notConnected])
    ∧ (c2.disconnect).1.child = false
    ∧ (c2.disconnect).1.sendRequest method params timeout
        = ((c2.disconnect).1, [.sendRejected .notConnected]) := by
  have hd : (c2.disconnect).1.child = false := by
    unfold Conn.disconnect Conn.rejectAllPending Conn.setState
    dsimp only
    split <;> rfl
  refine ⟨by simp [Conn.sendRequest, h], hd, by simp [Conn.sendRequest, hd]⟩

/-- Witness for C10 at a freshly constructed connection and a live one
being disconnected. -/
theorem sendRequest_not_connected_witness :
    (mkConn sampleOpts).child = false
    ∧ ((mkConn sampleOpts).sendRequest "ping" none none
        = (mkConn sampleOpts, [.sendRejected .notConnected])
      ∧ (sampleConn.disconnect).1.child = false
      ∧ (sampleConn.disconnect).1.sendRequest "ping" none none
          = ((sampleConn.disconnect).1, [.sendRejected .notConnected])) :=
  ⟨rfl, sendRequest_not_connected (mkConn sampleOpts) sampleConn rfl "ping" none none⟩

/-- C8 counterexample: a request sent without a caller-supplied timeout
records a 300000 ms (300 s) deadline, not the claimed 600 s. -/
theorem default_timeout_counterexample :
    alist.lookup 0
        ((Conn.sendRequest { mkConn sampleOpts with child := true } "ping" none none).1.pending)
      = some ⟨"ping", 300000⟩
    ∧ (300000 : Nat) ≠ 600000 := by
  exact ⟨rfl, by decide⟩

/-- C8 (amended): without a caller-supplied timeout the deadline is the
connection's requestTimeout, which defaults to 300 s (not 600 s); the
initialize and session/new handshake requests of connect run under the
initialize-class timeout, which defaults to 60 s. -/
theorem default_deadlines (c : Conn) (h : c.child = true)
    (method : String) (params : Option Json)
    (a : AcpConn) (ws : String) (hb : a.base = mkConn sampleOpts) :
    alist.lookup c.nextId ((c.sendRequest method params none).1.pending)
        = some ⟨method, c.requestTimeout⟩
    ∧ (mkConn sampleOpts).requestTimeout = 300000
    ∧ (mkConn sampleOpts).initTimeout = 60000
    ∧ rejectionsOf (a.connect ws .timeout .timeout).2.1
        = [(0, .timeout 60000 "initialize")]
    ∧ rejectionsOf (a.connect ws (.ok .null) .timeout).2.1
        = [(1, .timeout 60000 "session/new")] := by
  obtain ⟨b, aa, pv, cn, cv⟩ := a
  simp only at hb
  subst hb
  refine ⟨?_, rfl, rfl, rfl, rfl⟩
  simp [Conn.sendRequest, h, alist.lookup_set_self]

/-- Witness for C8's amended statement at a concrete connection. -/
theorem default_deadlines_witness :
    sampleConn.child = true
    ∧ sampleAcp.base = mkConn sampleOpts
    ∧ (alist.lookup sampleConn.nextId
          ((sampleConn.sendRequest "ping" none none).1.pending)
        = some ⟨"ping", sampleConn.requestTimeout⟩
      ∧ (mkConn sampleOpts).requestTimeout = 300000
      ∧ (mkConn sampleOpts).initTimeout = 60000
      ∧ rejectionsOf (sampleAcp.connect "/w" .timeout .timeout).2.1
          = [(0, .timeout 60000 "initialize")]
      ∧ rejectionsOf (sampleAcp.connect "/w" (.ok .null) .timeout).2.1
          = [(1, .timeout 60000 "session/new")]) :=
  ⟨rfl, rfl, default_deadlines sampleConn rfl "ping" none sampleAcp "/w" rfl⟩

/-- C6: process exit rejects every pending request with the same
process-terminated error, empties the pending table and moves the state
to closed; a process/spawn error moves the state to error and likewise
rejects everything pending. -/
theorem process_exit_rejects_all (c : Conn) (code : Option Int) (sig : Option String) :
    (c.onExit code sig).1.pending = []
    ∧ (c.onExit code sig).1.state = .closed
    ∧ rejectionsOf (c.onExit code sig).2
        = c.pending.map (fun kv => (kv.1, ErrKind.processTerminated code sig))
    ∧ (c.onProcError).1.pending = []
    ∧ (c.onProcError).1.state = .error
    ∧ rejectionsOf (c.onProcError).2
        = c.pending.map (fun kv => (kv.1, ErrKind.spawnError)) := by
  refine ⟨?_, ?_, ?_, ?_, ?_, ?_⟩ <;>
    simp only [Conn.onExit, Conn.onProcError, Conn.setState, Conn.rejectAllPending] <;>
    split <;>
    simp_all

/-- C3: a fired deadline removes the PendingRequest and rejects the
caller with a timeout error; a response for that id arriving afterwards
is silently discarded — the connection is unchanged, no promise settles
a second time, no handler runs, no error is raised. -/
theorem timeout_then_late_response (c : Conn) (id : Nat) (p : PendingRequest)
    (hp : alist.lookup id c.pending = some p) (v : Json) :
    (c.fireTimeout id).2 = [.rejected id (.timeout p.timeoutMs p.method)]
    ∧ alist.lookup id (c.fireTimeout id).1.pending = none
    ∧ (c.fireTimeout id).1.handleMessageCore (responseMsg id v)
        = ((c.fireTimeout id).1, [], .noDispatch) := by
  have h1 : c.fireTimeout id
      = ({ c with pending := alist.erase id c.pending },
         [.rejected id (.timeout p.timeoutMs p.method)]) := by
    simp [Conn.fireTimeout, hp]
  rw [h1]
  exact ⟨rfl, alist.lookup_erase_self id c.pending,
    by simp [Conn.handleMessageCore, responseMsg, alist.lookup_erase_self]⟩

/-- Witness for C3 with a concrete pending request and a late result. -/
theorem timeout_then_late_response_witness :
    alist.lookup 0 samplePending.pending = some ⟨"a", 1000⟩
    ∧ ((samplePending.fireTimeout 0).2 = [.rejected 0 (.timeout 1000 "a")]
      ∧ alist.lookup 0 (samplePending.fireTimeout 0).1.pending = none
      ∧ (samplePending.fireTimeout 0).1.handleMessageCore (responseMsg 0 .null)
          = ((samplePending.fireTimeout 0).1, [], .noDispatch)) :=
  ⟨rfl, timeout_then_late_response samplePending 0 ⟨"a", 1000⟩ rfl .null⟩

/-- C5: a remote-initiated request whose method neither adapter handles
is answered with a -32601 (method not found) error response carrying the
same id; the tool adapter's unsupported sampling method is answered the
same way, so no remote-initiated request of an unhandled method is left
unanswered. -/
theorem unknown_method_answered (a : AcpConn) (m : McpConn)
    (rid rid2 rid3 : Nat) (meth1 meth2 : String) (ps1 ps2 ps3 : Option Json)
    (h1 : meth1 ∉ ["session/request_permission", "fs/read_text_file", "fs/write_text_file"])
    (h2 : meth2 ∉ ["elicitation/create", "sampling/createMessage"]) :
    a.handleServerRequest rid meth1 ps1
        = (a, [.wire (.errorResponse rid (-32601) ("지원하지 않는 메서드: " ++ meth1))])
    ∧ m.handleServerRequest rid2 meth2 ps2
        = (m, [.wire (.errorResponse rid2 (-32601) ("지원하지 않는 메서드: " ++ meth2))])
    ∧ m.handleServerRequest rid3 "sampling/createMessage" ps3
        = (m, [.wire (.errorResponse rid3 (-32601)
            "sampling/createMessage은 현재 지원하지 않습니다")]) := by
  simp only [List.mem_cons, List.mem_singleton, not_or] at h1 h2
  refine ⟨?_, ?_, ?_⟩
  · simp [AcpConn.handleServerRequest, h1.1, h1.2.1, h1.2.2.1]
  · simp [McpConn.handleServerRequest, h2.1, h2.2.1]
  · simp [McpConn.handleServerRequest]

/-- Witness for C5 at a concrete unknown method name. -/
theorem unknown_method_answered_witness :
    ("widget/frobnicate" ∉ ["session/request_permission", "fs/read_text_file", "fs/write_text_file"]
      ∧ "widget/frobnicate" ∉ ["elicitation/create", "sampling/createMessage"])
    ∧ (sampleAcp.handleServerRequest 7 "widget/frobnicate" none
        = (sampleAcp, [.wire (.errorResponse 7 (-32601)
            ("지원하지 않는 메서드: " ++ "widget/frobnicate"))])
      ∧ sampleMcp.handleServerRequest 8 "widget/frobnicate" none
        = (sampleMcp, [.wire (.errorResponse 8 (-32601)
            ("지원하지 않는 메서드: " ++ "widget/frobnicate"))])
      ∧ sampleMcp.handleServerRequest 9 "sampling/createMessage" none
        = (sampleMcp, [.wire (.errorResponse 9 (-32601)
            "sampling/createMessage은 현재 지원하지 않습니다")])) :=
  ⟨⟨by decide, by decide⟩,
    unknown_method_answered sampleAcp sampleMcp 7 8 9 "widget/frobnicate"
      "widget/frobnicate" none none none (by decide) (by decide)⟩

/-- Test whether an output is the state-change-to-ready event. -/
def isReadyEvent : Output → Bool
  | .event n [.str s] => n = "stateChange" && s = "ready"
  | _ => false

/-- C9 counterexample: when the initialize handshake fails with an RPC
error, connect fails but the connection is left in the `initializing`
state, not the `error` state the claim asserts. -/
theorem connect_failure_state_counterexample :
    (sampleAcp.connect "/w" (.err (-32600) "bad request") (.ok .null)).2.2 = false
    ∧ (sampleAcp.connect "/w" (.err (-32600) "bad request") (.ok .null)).1.base.state
        = .initializing
    ∧ ConnectionState.initializing ≠ ConnectionState.error :=
  ⟨rfl, rfl, by decide⟩

/-- C9 (amended): connect succeeds exactly when both the initialize
handshake and the session-creation request succeed; on success the state
is `ready`, and on failure of either step the state is left at
`initializing` and no state change to `ready` ever happens during the
attempt. -/
theorem connect_ready_iff_both_succeed (a : AcpConn) (ws : String)
    (o1 o2 : RpcOutcome) :
    (a.connect ws o1 o2).2.2 = (o1.isOk && o2.isOk)
    ∧ (a.connect ws o1 o2).1.base.state
        = (if o1.isOk && o2.isOk then .ready else .initializing)
    ∧ (a.connect ws o1 o2).2.1.filter isReadyEvent
        = (if o1.isOk && o2.isOk then [.event "stateChange" [.str "ready"]] else []) := by
  cases o1 <;> cases o2 <;>
    by_cases hs : a.base.state = .connecting <;>
      simp [AcpConn.connect, Conn.spawnProcess, Conn.setState, Conn.sendRequest,
        Conn.deliverOutcome, Conn.handleMessageCore, Conn.fireTimeout,
        RpcOutcome.isOk, isReadyEvent, ConnectionState.name, hs,
        alist.lookup_set_self, responseMsg]

@[simp] theorem responsesOf_nil : responsesOf [] = [] := rfl

@[simp] theorem responsesOf_append (l1 l2 : List Output) :
    responsesOf (l1 ++ l2) = responsesOf l1 ++ responsesOf l2 :=
  List.filterMap_append l1 l2 _

@[simp] theorem responsesOf_event (n : String) (p : List Json) (outs : List Output) :
    responsesOf (.event n p :: outs) = responsesOf outs := rfl

@[simp] theorem responsesOf_response (i : Nat) (r : Json) (outs : List Output) :
    responsesOf (.wire (.response i r) :: outs) = (i, r) :: responsesOf outs := rfl

/-- The out-of-band `codex/event` notification marking an
exec-approval-request for call id `X`. -/
def codexEventMsg (X : String) : RawMessage :=
  { id := none, method := some "codex/event", result := none, error := none,
    params := some (.obj [("msg",
      .obj [("type", .str "exec_approval_request"), ("call_id", .str X)])]) }

/-- The formal `elicitation/create` request for call id `X`, carrying
the server-assigned JSON-RPC id `rid`. -/
def elicitMsg (X : String) (rid : Nat) : RawMessage :=
  { id := some rid, method := some "elicitation/create", result := none, error := none,
    params := some (.obj [("codex_call_id", .str X)]) }

/-- C1: under automatic approval, delivering the codex/event
notification and the formal elicitation request for the same call id in
either order sends exactly one decision — `approved` — as the response
to the formal request's id; the buffered PendingApproval entry created
by an early notification is present after the notification and is
consumed and removed when the formal request arrives. -/
theorem elicitation_race (m : McpConn) (X : String) (rid : Nat)
    (hAuto : m.autoApprove = true) (hX : X ≠ "")
    (hFresh : alist.lookup X m.pendingAutoApprovals = none)
    (hRid : alist.lookup rid m.base.pending = none) :
    responsesOf (m.handleMessages [codexEventMsg X, elicitMsg X rid]).2
        = [(rid, elicitationResult .approved)]
    ∧ alist.lookup X
        (m.handleMessage (codexEventMsg X)).1.pendingAutoApprovals
        = some .approved
    ∧ alist.lookup X
        (m.handleMessages [codexEventMsg X, elicitMsg X rid]).1.pendingAutoApprovals
        = none
    ∧ responsesOf (m.handleMessages [elicitMsg X rid, codexEventMsg X]).2
        = [(rid, elicitationResult .approved)] := by
  obtain ⟨b, auto, yolo, A⟩ := m
  simp only at hAuto hFresh hRid
  subst hAuto
  have hnotif : McpConn.handleMessage ⟨b, true, yolo, A⟩ (codexEventMsg X)
      = (⟨b, true, yolo, alist.set X .approved A⟩,
         [.event "codexEvent" [(.obj [("msg",
            .obj [("type", .str "exec_approval_request"), ("call_id", .str X)])])]]) := by
    simp [McpConn.handleMessage, Conn.handleMessageCore, codexEventMsg,
      McpConn.handleNotification, Json.get, Json.getStr, jsTruthyStr,
      List.lookup, hX]
  have hreqA : McpConn.handleMessage ⟨b, true, yolo, alist.set X .approved A⟩
        (elicitMsg X rid)
      = (⟨b, true, yolo, alist.erase X (alist.set X .approved A)⟩,
         [.wire (.response rid (elicitationResult .approved))]) := by
    simp [McpConn.handleMessage, Conn.handleMessageCore, elicitMsg,
      McpConn.handleServerRequest, Json.get, Json.getStr, jsTruthyStr,
      List.lookup, hX, hRid, alist.lookup_set_self]
  have hreqB : McpConn.handleMessage ⟨b, true, yolo, A⟩ (elicitMsg X rid)
      = (⟨b, true, yolo, A⟩, [.wire (.response rid (elicitationResult .approved))]) := by
    simp [McpConn.handleMessage, Conn.handleMessageCore, elicitMsg,
      McpConn.handleServerRequest, McpConn.elicitationDefault, Json.get,
      Json.getStr, jsTruthyStr, List.lookup, hX, hRid, hFresh]
  refine ⟨?_, ?_, ?_, ?_⟩
  · simp [McpConn.handleMessages, hnotif, hreqA]
  · simp [hnotif, alist.lookup_set_self]
  · simp [McpConn.handleMessages, hnotif, hreqA, alist.lookup_erase_self]
  · simp [McpConn.handleMessages, hreqB, hnotif]

/-- Witness for C1: a connection in automatic-approval mode, call id
"call-1", server request id 5. -/
theorem elicitation_race_witness :
    (sampleMcp.autoApprove = true ∧ "call-1" ≠ ""
      ∧ alist.lookup "call-1" sampleMcp.pendingAutoApprovals = none
      ∧ alist.lookup 5 sampleMcp.base.pending = none)
    ∧ (responsesOf (sampleMcp.handleMessages
          [codexEventMsg "call-1", elicitMsg "call-1" 5]).2
        = [(5, elicitationResult .approved)]
      ∧ alist.lookup "call-1"
          (sampleMcp.handleMessage (codexEventMsg "call-1")).1.pendingAutoApprovals
          = some .approved
      ∧ alist.lookup "call-1"
          (sampleMcp.handleMessages
            [codexEventMsg "call-1", elicitMsg "call-1" 5]).1.pendingAutoApprovals
          = none
      ∧ responsesOf (sampleMcp.handleMessages
          [elicitMsg "call-1" 5, codexEventMsg "call-1"]).2
        = [(5, elicitationResult .approved)]) :=
  ⟨⟨rfl, by decide, rfl, rfl⟩,
    elicitation_race sampleMcp "call-1" 5 rfl (by decide) rfl rfl⟩

@[simp] theorem reqIds_nil : reqIds [] = [] := rfl

@[simp] theorem reqIds_append (l1 l2 : List Output) :
    reqIds (l1 ++ l2) = reqIds l1 ++ reqIds l2 :=
  List.filterMap_append l1 l2 _

@[simp] theorem reqIds_event (n : String) (p : List Json) (outs : List Output) :
    reqIds (.event n p :: outs) = reqIds outs := rfl

@[simp] theorem reqIds_resolve (i : Nat) (r : Option Json) (outs : List Output) :
    reqIds (.resolve i r :: outs) = reqIds outs := rfl

@[simp] theorem reqIds_rejected (i : Nat) (e : ErrKind) (outs : List Output) :
    reqIds (.rejected i e :: outs) = reqIds outs := rfl

@[simp] theorem reqIds_sendRejected (e : ErrKind) (outs : List Output) :
    reqIds (.sendRejected e :: outs) = reqIds outs := rfl

@[simp] theorem reqIds_log (s : String) (outs : List Output) :
    reqIds (.log s :: outs) = reqIds outs := rfl

@[simp] theorem reqIds_request (i : Nat) (meth : String) (ps : Option Json)
    (outs : List Output) :
    reqIds (.wire (.request i meth ps) :: outs) = i :: reqIds outs := rfl

@[simp] theorem reqIds_map_rejected (l : List (Nat × PendingRequest)) (err : ErrKind) :
    reqIds (l.map (fun kv => Output.rejected kv.1 err)) = [] := by
  induction l with
  | nil => rfl
  | cons kv rest ih =>
    simp only [List.map_cons, reqIds_rejected, ih]

theorem mem_of_getLast_some {α : Type} {l : List α} {x : α}
    (h : l.getLast? = some x) : x ∈ l := by
  induction l with
  | nil => simp at h
  | cons a t ih =>
    cases t with
    | nil => simp_all
    | cons b t2 =>
      rw [List.getLast?_cons_cons] at h
      exact List.mem_cons_of_mem a (ih h)

theorem mem_of_head_some {α : Type} {l : List α} {x : α}
    (h : l.head? = some x) : x ∈ l := by
  cases l with
  | nil => simp at h
  | cons a t => simp_all

/-- C2: with distinct pending ids, delivering the responses in any
permutation of send order settles each caller's promise with exactly the
result carried by the response bearing that caller's id, one resolution
per caller, and empties the pending table. -/
theorem responses_correlate (c : Conn) (f : Nat → Json) (perm : List Nat)
    (hnd : (connKeys c).Nodup)
    (hperm : perm.Perm (connKeys c)) :
    (c.deliverResponses (perm.map (fun i => (i, f i)))).2
        = perm.map (fun i => Output.resolve i (some (f i)))
    ∧ (c.deliverResponses (perm.map (fun i => (i, f i)))).1.pending = [] := by
  induction perm generalizing c with
  | nil =>
    have hkeys : connKeys c = [] := hperm.symm.eq_nil
    have hpend : c.pending = [] := by
      have := hkeys
      unfold connKeys at this
      exact List.map_eq_nil_iff.mp this
    exact ⟨rfl, hpend⟩
  | cons i rest ih =>
    have hin : i ∈ connKeys c := hperm.subset (List.mem_cons_self i rest)
    obtain ⟨p, hp⟩ := alist.lookup_isSome_of_mem hin
    have hstep : c.handleMessageCore (responseMsg i (f i))
        = ({ c with pending := alist.erase i c.pending },
           [.resolve i (some (f i))], .noDispatch) := by
      simp [Conn.handleMessageCore, responseMsg, hp]
    have hkeys1 : connKeys { c with pending := alist.erase i c.pending }
        = (connKeys c).filter (fun x => x ≠ i) := by
      simp [connKeys, alist.keys_erase]
    have hnd1 : (connKeys { c with pending := alist.erase i c.pending }).Nodup := by
      rw [hkeys1]
      exact hnd.filter _
    have hndcons : (i :: rest).Nodup := hperm.symm.nodup hnd
    have hi_notin : i ∉ rest := (List.nodup_cons.mp hndcons).1
    have hperm1 : rest.Perm (connKeys { c with pending := alist.erase i c.pending }) := by
      rw [hkeys1]
      have h3 := (List.cons_perm_iff_perm_erase.mp hperm).2
      have hfun : (fun x : Nat => (x != i)) = (fun x : Nat => decide (x ≠ i)) := by
        funext a
        by_cases ha : a = i <;> simp [ha]
      have h4 : (connKeys c).erase i = (connKeys c).filter (fun x => x ≠ i) := by
        rw [hnd.erase_eq_filter i, hfun]
      rwa [h4] at h3
    obtain ⟨g1, g2⟩ := ih { c with pending := alist.erase i c.pending } hnd1 hperm1
    constructor
    · simp only [List.map_cons, Conn.deliverResponses, hstep, g1]
      rfl
    · simp only [List.map_cons, Conn.deliverResponses, hstep, g2]

/-- Witness for C2: two outstanding requests answered in reverse order,
each caller getting its own result. -/
theorem responses_correlate_witness :
    ((connKeys samplePending).Nodup ∧ List.Perm [1, 0] (connKeys samplePending))
    ∧ ((samplePending.deliverResponses ([1, 0].map (fun i => (i, Json.num i)))).2
        = [1, 0].map (fun i => Output.resolve i (some (Json.num i)))
      ∧ (samplePending.deliverResponses ([1, 0].map (fun i => (i, Json.num i)))).1.pending
        = []) :=
  ⟨⟨by decide, by decide⟩,
    responses_correlate samplePending (fun i => Json.num i) [1, 0] (by decide) (by decide)⟩

theorem ConnWF_of_same {c c' : Conn} (hp : c'.pending = c.pending)
    (hn : c'.nextId = c.nextId) (h : ConnWF c) : ConnWF c' := by
  unfold ConnWF connKeys at *
  rw [hp, hn]
  exact h

theorem ConnWF_of_erase (c : Conn) (id : Nat) (h : ConnWF c) :
    ConnWF { c with pending := alist.erase id c.pending } := by
  obtain ⟨hnd, hb⟩ := h
  unfold ConnWF connKeys at *
  dsimp only
  rw [alist.keys_erase]
  exact ⟨hnd.filter _, fun k hk => hb _ (List.mem_of_mem_filter hk)⟩

theorem ConnWF_of_nil {c' : Conn} (hp : c'.pending = []) : ConnWF c' := by
  unfold ConnWF connKeys
  rw [hp]
  exact ⟨List.nodup_nil, by simp⟩

/-- Per-step allocation facts: well-formedness of the pending table is
preserved, the id counter never decreases, and any request id written by
the step was allocated at or above the counter and below the new
counter. -/
theorem step_spec (c : Conn) (op : Op) (h : ConnWF c) :
    ConnWF (c.step op).1
    ∧ c.nextId ≤ (c.step op).1.nextId
    ∧ List.Chain' (· < ·) (reqIds (c.step op).2)
    ∧ ∀ i ∈ reqIds (c.step op).2, c.nextId ≤ i ∧ i < (c.step op).1.nextId := by
  cases op with
  | spawn =>
    have hpend : (c.step .spawn).1.pending = c.pending := by
      simp only [Conn.step, Conn.spawnProcess, Conn.setState]
      split <;> split <;> rfl
    have hnext : (c.step .spawn).1.nextId = c.nextId := by
      simp only [Conn.step, Conn.spawnProcess, Conn.setState]
      split <;> split <;> rfl
    have hreq : reqIds (c.step .spawn).2 = [] := by
      simp only [Conn.step, Conn.spawnProcess, Conn.setState]
      split <;> split <;> simp
    rw [hnext, hreq]
    exact ⟨ConnWF_of_same hpend hnext h, le_refl _, by simp, by simp⟩
  | send meth ps t =>
    obtain ⟨hnd, hb⟩ := h
    by_cases hc : c.child
    · have hfresh : c.nextId ∉ connKeys c := fun hm => lt_irrefl _ (hb _ hm)
      have hstep : c.step (.send meth ps t)
          = (({ c with
                nextId := c.nextId + 1
                pending := alist.set c.nextId ⟨meth, t.getD c.requestTimeout⟩
                  c.pending } : Conn),
             [.wire (.request c.nextId meth ps)]) := by
        simp [Conn.step, Conn.sendRequest, hc]
      rw [hstep]
      refine ⟨⟨?_, ?_⟩, Nat.le_succ _, by simp, ?_⟩
      · show (connKeys _).Nodup
        unfold connKeys
        dsimp only
        rw [alist.keys_set_fresh _ hfresh]
        refine hnd.append (List.nodup_singleton _) ?_
        intro a ha ha2
        rw [List.mem_singleton] at ha2
        exact hfresh (ha2 ▸ ha)
      · intro k hk
        unfold connKeys at hk
        dsimp only at hk ⊢
        rw [alist.keys_set_fresh _ hfresh] at hk
        rcases List.mem_append.mp hk with hk1 | hk2
        · exact Nat.lt_succ_of_lt (hb _ hk1)
        · rw [List.mem_singleton] at hk2
          exact hk2 ▸ Nat.lt_succ_self _
      · intro i hi
        simp only [reqIds_request, reqIds_nil, List.mem_singleton] at hi
        subst hi
        exact ⟨le_refl _, Nat.lt_succ_self _⟩
    · have hstep : c.step (.send meth ps t) = (c, [.sendRejected .notConnected]) := by
        simp [Conn.step, Conn.sendRequest, hc]
      rw [hstep]
      exact ⟨⟨hnd, hb⟩, le_refl _, by simp, by simp⟩
  | deliver msg =>
    rcases hid : msg.id with _ | mid
    · have hstep : c.step (.deliver msg) = (c, []) := by
        rcases hm : msg.method with _ | meth <;>
          simp [Conn.step, Conn.handleMessageCore, hid, hm]
      rw [hstep]
      exact ⟨h, le_refl _, by simp, by simp⟩
    · rcases hlk : alist.lookup mid c.pending with _ | p
      · have hstep : c.step (.deliver msg) = (c, []) := by
          rcases hm : msg.method with _ | meth <;>
            simp [Conn.step, Conn.handleMessageCore, hid, hlk, hm]
        rw [hstep]
        exact ⟨h, le_refl _, by simp, by simp⟩
      · rcases he : msg.error with _ | e
        · have hstep : c.step (.deliver msg)
              = ({ c with pending := alist.erase mid c.pending },
                 [.resolve mid msg.result]) := by
            simp [Conn.step, Conn.handleMessageCore, hid, hlk, he]
          rw [hstep]
          exact ⟨ConnWF_of_erase c mid h, le_refl _, by simp, by simp⟩
        · have hstep : c.step (.deliver msg)
              = ({ c with pending := alist.erase mid c.pending },
                 [.rejected mid (.rpcError e.code e.message)]) := by
            simp [Conn.step, Conn.handleMessageCore, hid, hlk, he]
          rw [hstep]
          exact ⟨ConnWF_of_erase c mid h, le_refl _, by simp, by simp⟩
  | fire id =>
    rcases hlk : alist.lookup id c.pending with _ | p
    · have hstep : c.step (.fire id) = (c, []) := by
        simp [Conn.step, Conn.fireTimeout, hlk]
      rw [hstep]
      exact ⟨h, le_refl _, by simp, by simp⟩
    · have hstep : c.step (.fire id)
          = ({ c with pending := alist.erase id c.pending },
             [.rejected id (.timeout p.timeoutMs p.method)]) := by
        simp [Conn.step, Conn.fireTimeout, hlk]
      rw [hstep]
      exact ⟨ConnWF_of_erase c id h, le_refl _, by simp, by simp⟩
  | exited code sig =>
    have hpend : (c.step (.exited code sig)).1.pending = [] := by
      simp only [Conn.step, Conn.onExit, Conn.setState, Conn.rejectAllPending]
    have hnext : (c.step (.exited code sig)).1.nextId = c.nextId := by
      simp only [Conn.step, Conn.onExit, Conn.setState, Conn.rejectAllPending]
      split <;> rfl
    have hreq : reqIds (c.step (.exited code sig)).2 = [] := by
      simp only [Conn.step, Conn.onExit, Conn.setState, Conn.rejectAllPending]
      split <;> simp
    rw [hnext, hreq]
    exact ⟨ConnWF_of_nil hpend, le_refl _, by simp, by simp⟩
  | errored =>
    have hpend : (c.step .errored).1.pending = [] := by
      simp only [Conn.step, Conn.onProcError, Conn.setState, Conn.rejectAllPending]
    have hnext : (c.step .errored).1.nextId = c.nextId := by
      simp only [Conn.step, Conn.onProcError, Conn.setState, Conn.rejectAllPending]
      split <;> rfl
    have hreq : reqIds (c.step .errored).2 = [] := by
      simp only [Conn.step, Conn.onProcError, Conn.setState, Conn.rejectAllPending]
      split <;> simp
    rw [hnext, hreq]
    exact ⟨ConnWF_of_nil hpend, le_refl _, by simp, by simp⟩
  | close =>
    have hpend : (c.step .close).1.pending = [] := by
      simp only [Conn.step, Conn.disconnect, Conn.setState, Conn.rejectAllPending]
      split <;> rfl
    have hnext : (c.step .close).1.nextId = c.nextId := by
      simp only [Conn.step, Conn.disconnect, Conn.setState, Conn.rejectAllPending]
      split <;> rfl
    have hreq : reqIds (c.step .close).2 = [] := by
      simp only [Conn.step, Conn.disconnect, Conn.setState, Conn.rejectAllPending]
      split <;> simp
    rw [hnext, hreq]
    exact ⟨ConnWF_of_nil hpend, le_refl _, by simp, by simp⟩

/-- C7: starting from any well-formed connection, over any operation
sequence the pending table keeps distinct ids all below the counter (so
an id is never reused while its PendingRequest is outstanding), the
counter never decreases, and the allocated request ids strictly increase
in allocation order, each lying between the starting and final counter
values; moreover a send on a live connection allocates exactly the
counter value, which is absent from the pending table before the send
and mapped to the new PendingRequest afterwards. -/
theorem id_allocation (ops : List Op) (c c2 : Conn)
    (h : ConnWF c) (h2 : ConnWF c2) (hchild : c2.child = true)
    (method : String) (params : Option Json) (timeout : Option Nat) :
    (ConnWF (c.runOps ops).1
      ∧ c.nextId ≤ (c.runOps ops).1.nextId
      ∧ List.Chain' (· < ·) (reqIds (c.runOps ops).2)
      ∧ ∀ i ∈ reqIds (c.runOps ops).2, c.nextId ≤ i ∧ i < (c.runOps ops).1.nextId)
    ∧ (alist.lookup c2.nextId c2.pending = none
      ∧ (c2.sendRequest method params timeout).1.nextId = c2.nextId + 1
      ∧ alist.lookup c2.nextId (c2.sendRequest method params timeout).1.pending
          = some ⟨method, timeout.getD c2.requestTimeout⟩
      ∧ reqIds (c2.sendRequest method params timeout).2 = [c2.nextId]) := by
  constructor
  · induction ops generalizing c with
    | nil =>
      refine ⟨h, le_refl _, ?_, ?_⟩ <;> simp [Conn.runOps]
    | cons op rest ih =>
      obtain ⟨s1, s2, s3, s4⟩ := step_spec c op h
      obtain ⟨g1, g2, g3, g4⟩ := ih (c.step op).1 s1
      have hrun : c.runOps (op :: rest)
          = (((c.step op).1.runOps rest).1, (c.step op).2 ++ ((c.step op).1.runOps rest).2) := by
        simp [Conn.runOps]
      rw [hrun]
      refine ⟨g1, le_trans s2 g2, ?_, ?_⟩
      · rw [reqIds_append]
        refine s3.append g3 ?_
        intro x hx y hy
        have hx2 := mem_of_getLast_some hx
        have hy2 := mem_of_head_some hy
        exact lt_of_lt_of_le (s4 x hx2).2 (g4 y hy2).1
      · intro i hi
        rw [reqIds_append, List.mem_append] at hi
        rcases hi with hi | hi
        · exact ⟨(s4 i hi).1, lt_of_lt_of_le (s4 i hi).2 g2⟩
        · exact ⟨le_trans s2 (g4 i hi).1, (g4 i hi).2⟩
  · have hfresh : alist.lookup c2.nextId c2.pending = none :=
      alist.lookup_eq_none_of_bound h2.2
    refine ⟨hfresh, ?_, ?_, ?_⟩ <;>
      simp [Conn.sendRequest, hchild, alist.lookup_set_self]

/-- Witness for C7: a concrete run that spawns, sends twice, answers the
first request and times the second out, then sends again. -/
theorem id_allocation_witness :
    (ConnWF (mkConn sampleOpts) ∧ ConnWF sampleConn ∧ sampleConn.child = true)
    ∧ ((ConnWF ((mkConn sampleOpts).runOps
          [.spawn, .send "a" none none, .send "b" none none,
           .deliver (responseMsg 0 .null), .fire 1, .send "c" none none]).1
      ∧ (mkConn sampleOpts).nextId ≤ ((mkConn sampleOpts).runOps
          [.spawn, .send "a" none none, .send "b" none none,
           .deliver (responseMsg 0 .null), .fire 1, .send "c" none none]).1.nextId
      ∧ List.Chain' (· < ·) (reqIds ((mkConn sampleOpts).runOps
          [.spawn, .send "a" none none, .send "b" none none,
           .deliver (responseMsg 0 .null), .fire 1, .send "c" none none]).2)
      ∧ ∀ i ∈ reqIds ((mkConn sampleOpts).runOps
          [.spawn, .send "a" none none, .send "b" none none,
           .deliver (responseMsg 0 .null), .fire 1, .send "c" none none]).2,
          (mkConn sampleOpts).nextId ≤ i
          ∧ i < ((mkConn sampleOpts).runOps
              [.spawn, .send "a" none none, .send "b" none none,
               .deliver (responseMsg 0 .null), .fire 1, .send "c" none none]).1.nextId)
      ∧ (alist.lookup sampleConn.nextId sampleConn.pending = none
        ∧ (sampleConn.sendRequest "ping" none (some 5000)).1.nextId = sampleConn.nextId + 1
        ∧ alist.lookup sampleConn.nextId
            (sampleConn.sendRequest "ping" none (some 5000)).1.pending
            = some ⟨"ping", (some 5000).getD sampleConn.requestTimeout⟩
        ∧ reqIds (sampleConn.sendRequest "ping" none (some 5000)).2
            = [sampleConn.nextId])) :=
  ⟨⟨by decide, by decide, rfl⟩,
    id_allocation
      [.spawn, .send "a" none none, .send "b" none none,
       .deliver (responseMsg 0 .null), .fire 1, .send "c" none none]
      (mkConn sampleOpts) sampleConn (by decide) (by decide) rfl
      "ping" none (some 5000)⟩

theorem processLines_nonjson (parse : String → Option RawMessage)
    (lines : List String) (m : McpConn)
    (h : ∀ l ∈ lines, parse (jsTrim l) = none) :
    m.processLines parse lines
      = (m, lines.filterMap (fun l =>
          if jsTrim l = "" then none
          else some (.log ("[stdout non-json] " ++ jsTrim l)))) := by
  induction lines with
  | nil => rfl
  | cons l rest ih =>
    have hl := h l (List.mem_cons_self l rest)
    have hr : ∀ x ∈ rest, parse (jsTrim x) = none :=
      fun x hx => h x (List.mem_cons_of_mem _ hx)
    by_cases hb : jsTrim l = ""
    · simp [McpConn.processLines, McpConn.processLine, hb, ih hr, List.filterMap_cons]
    · simp [McpConn.processLines, McpConn.processLine, hb, hl, ih hr, List.filterMap_cons]

/-- C4: a complete inbound line that fails to parse as JSON never raises
an error and leaves the machine — state, pending requests, approvals —
entirely unchanged, producing exactly one log event; a line that parses
is dispatched normally; and a whole data chunk whose complete lines all
fail to parse changes nothing but the partial-line buffer, producing
exactly one log event per non-blank line. -/
theorem nonjson_line_logged (parse : String → Option RawMessage)
    (m m2 m3 : McpConn) (line good data : String) (msg : RawMessage)
    (hne : jsTrim line ≠ "") (hbad : parse (jsTrim line) = none)
    (hgood : jsTrim good ≠ "") (hmsg : parse (jsTrim good) = some msg)
    (hall : ∀ l ∈ (jsSplitLines (m3.base.stdoutBuffer ++ data)).dropLast,
        parse (jsTrim l) = none) :
    m.processLine parse line = (m, [.log ("[stdout non-json] " ++ jsTrim line)])
    ∧ m2.processLine parse good = m2.handleMessage msg
    ∧ m3.onStdoutData parse data
        = ({ m3 with base := { m3.base with stdoutBuffer :=
              (jsSplitLines (m3.base.stdoutBuffer ++ data)).getLastD "" } },
           (jsSplitLines (m3.base.stdoutBuffer ++ data)).dropLast.filterMap (fun l =>
             if jsTrim l = "" then none
             else some (.log ("[stdout non-json] " ++ jsTrim l)))) := by
  refine ⟨?_, ?_, ?_⟩
  · simp [McpConn.processLine, hne, hbad]
  · simp [McpConn.processLine, hgood, hmsg]
  · simp only [McpConn.onStdoutData]
    exact processLines_nonjson parse _ _ hall

/-- A concrete parse table for the witness: exactly the line "note1"
decodes, to the codex/event notification for call id "call-2". -/
def sampleParse : String → Option RawMessage :=
  fun s => if s = "note1" then some (codexEventMsg "call-2") else none

/-- Witness for C4: the banner line is logged without touching the
machine, the decodable line is dispatched, and a two-line all-banner
chunk only shifts the buffer and logs both lines. -/
theorem nonjson_line_logged_witness :
    (jsTrim "banner" ≠ "" ∧ sampleParse (jsTrim "banner") = none
      ∧ jsTrim "note1" ≠ "" ∧ sampleParse (jsTrim "note1") = some (codexEventMsg "call-2")
      ∧ ∀ l ∈ (jsSplitLines (sampleMcp.base.stdoutBuffer ++ "banner\nnoise\n")).dropLast,
          sampleParse (jsTrim l) = none)
    ∧ (sampleMcp.processLine sampleParse "banner"
        = (sampleMcp, [.log ("[stdout non-json] " ++ jsTrim "banner")])
      ∧ sampleMcp.processLine sampleParse "note1"
        = sampleMcp.handleMessage (codexEventMsg "call-2")
      ∧ sampleMcp.onStdoutData sampleParse "banner\nnoise\n"
        = ({ sampleMcp with base := { sampleMcp.base with stdoutBuffer :=
              (jsSplitLines (sampleMcp.base.stdoutBuffer ++ "banner\nnoise\n")).getLastD "" } },
           (jsSplitLines (sampleMcp.base.stdoutBuffer ++ "banner\nnoise\n")).dropLast.filterMap
             (fun l =>
               if jsTrim l = "" then none
               else some (.log ("[stdout non-json] " ++ jsTrim l))))) :=
by
  have hall : ∀ l ∈ (jsSplitLines (sampleMcp.base.stdoutBuffer ++ "banner\nnoise\n")).dropLast,
      sampleParse (jsTrim l) = none := by
    intro l hl
    have he : (jsSplitLines (sampleMcp.base.stdoutBuffer ++ "banner\nnoise\n")).dropLast
        = ["banner", "noise"] := rfl
    rw [he] at hl
    simp only [List.mem_cons, List.not_mem_nil, or_false] at hl
    rcases hl with h | h <;> subst h <;> rfl
  exact ⟨⟨by decide, rfl, by decide, rfl, hall⟩,
    nonjson_line_logged sampleParse sampleMcp sampleMcp sampleMcp "banner" "note1"
      "banner\nnoise\n" (codexEventMsg "call-2") (by decide) rfl (by decide) rfl hall⟩

end UA
